import Mathlib

/-!
# Verification of the load-data-analysis inverter simulation

Shallow embedding of the core of `main.py`:

* Python floats are modelled as exact rationals (`ℚ`);
* Python strings as `List Char` (ASCII character classes; the free-variable
  glyph `λ` is the one non-ASCII character in the modelled domain);
* fallible code (a `raise`, an uncaught builtin exception) as `Option`;
* `eval` of a sanitized arithmetic expression as an explicit tokenizer and
  recursive-descent parser over `ℚ` (non-integer exponents, which would be
  irrational in general, are outside the rational model and are mapped to
  failure).

Field names of the Chinese-labelled output dictionary are transliterated:
`负载数据` = `load`, `逆变器发电量` = `inv`, `逆变器发电量占负载的百分比` = `pct`,
`逆变器发电调节量` = `adj`, `激进调节量` = `aggr`,
`逆变器发电调节量/激进调节量` = `adjRat`.
-/

namespace LoadAnalysis

/- The Batteries rational-number operations are marked irreducible, which
blocks `decide` on concrete rational computations; the kernel itself reduces
them fine, so we restore the default reducibility locally. -/
set_option allowUnsafeReducibility true
attribute [local semireducible] Rat.mul Rat.add Rat.sub Rat.inv Rat.ofScientific

/-- `truncate_decimal` from `main.py` lines 43-46 (identical in
`simple_analysis.py`): `math.floor(value * 10 ** decimals) / 10 ** decimals`,
defaulting to one decimal place. -/
def truncate_decimal (value : ℚ) (decimals : ℕ := 1) : ℚ :=
  ⌊value * 10 ^ decimals⌋ / 10 ^ decimals

/-! ## String helpers used by `parse_k_expression` -/

/-- Python `str.isdigit` restricted to the ASCII digits (the character
domain of the modelled expressions). -/
def pyIsDigit (c : Char) : Bool := c.isDigit

/-- Python `str.strip()`: drop leading and trailing whitespace. -/
def pyStrip (s : List Char) : List Char :=
  ((s.dropWhile Char.isWhitespace).reverse.dropWhile Char.isWhitespace).reverse

/-- Python `str.replace(' ', '')`: drop every space character. -/
def removeSpaces (s : List Char) : List Char :=
  s.filter (fun c => !(c = ' ' : Bool))

/-- `isPre pat s` : `pat` is a prefix of `s`. -/
def isPre : List Char → List Char → Bool
  | [], _ => true
  | _ :: _, [] => false
  | p :: ps, c :: cs => if p = c then isPre ps cs else false

/-- Fueled worker for `replaceSub`; the fuel is an upper bound on the
number of characters still to be scanned. -/
def replaceSubAux (pat repl : List Char) : ℕ → List Char → List Char
  | 0, s => s
  | _ + 1, [] => []
  | fuel + 1, c :: rest =>
    if isPre pat (c :: rest) then
      repl ++ replaceSubAux pat repl fuel (List.drop pat.length (c :: rest))
    else
      c :: replaceSubAux pat repl fuel rest

/-- Python `str.replace(pat, repl)`: replace every (non-overlapping,
left-to-right) occurrence.  All patterns used by the source are non-empty;
for an empty pattern the string is returned unchanged. -/
def replaceSub (pat repl s : List Char) : List Char :=
  if pat.isEmpty then s else replaceSubAux pat repl s.length s

/-- `expr.replace('.', '').replace('-', '')` from `main.py` line 76. -/
def residue (s : List Char) : List Char :=
  s.filter (fun c => !(c = '.' || c = '-'))

/-- The numeric-literal fast-path test of `main.py` line 76:
`expr.replace('.', '').replace('-', '').isdigit()` (Python's `isdigit` is
`False` on the empty string). -/
def residueDigits (s : List Char) : Bool :=
  !(residue s).isEmpty && (residue s).all pyIsDigit

/-- Membership in `set('0123456789+-*/.()eE')` from `main.py` line 87. -/
def isAllowed (c : Char) : Bool :=
  c.isDigit || c ∈ ['+', '-', '*', '/', '.', '(', ')', 'e', 'E']

/-- The whole-string charset validation of `main.py` line 88. -/
def allowedOk (s : List Char) : Bool := s.all isAllowed

/-! ## Python `float()` on numeric literals -/

/-- Numeric value of a list of ASCII digits. -/
def natOfDigits (ds : List Char) : ℕ :=
  ds.foldl (fun n c => 10 * n + (c.toNat - 48)) 0

/-- Mantissa of a float literal: `digits [ '.' digits? ] | '.' digits`,
with at least one digit overall.  Returns the value and the rest. -/
def pyFloatMantissa (s : List Char) : Option (ℚ × List Char) :=
  let d1 := s.takeWhile pyIsDigit
  let s1 := s.dropWhile pyIsDigit
  match s1 with
  | '.' :: s2 =>
    let d2 := s2.takeWhile pyIsDigit
    let s3 := s2.dropWhile pyIsDigit
    if d1.isEmpty && d2.isEmpty then none
    else some ((natOfDigits d1 : ℚ) + (natOfDigits d2 : ℚ) / 10 ^ d2.length, s3)
  | _ => if d1.isEmpty then none else some ((natOfDigits d1 : ℚ), s1)

/-- A non-empty run of digits, as an integer, plus the rest. -/
def pyDigitsVal (s : List Char) : Option (ℤ × List Char) :=
  match s.takeWhile pyIsDigit with
  | [] => none
  | ds => some ((natOfDigits ds : ℤ), s.dropWhile pyIsDigit)

/-- Model of Python's `float(...)` on literal strings:
`[sign] mantissa [('e'|'E') [sign] digits]`, nothing else.  (`inf`, `nan`
and underscore separators lie outside the modelled character domain.) -/
def pyFloat (s : List Char) : Option ℚ :=
  let signAndRest : Bool × List Char :=
    match s with
    | '-' :: r => (true, r)
    | '+' :: r => (false, r)
    | _ => (false, s)
  match pyFloatMantissa signAndRest.2 with
  | none => none
  | some (m, rest) =>
    let signed : ℚ := if signAndRest.1 then -m else m
    match rest with
    | [] => some signed
    | 'e' :: r | 'E' :: r =>
      match r with
      | '-' :: r2 =>
        (pyDigitsVal r2).bind fun p =>
          if p.2.isEmpty then some (signed * (10 : ℚ) ^ (-p.1)) else none
      | '+' :: r2 =>
        (pyDigitsVal r2).bind fun p =>
          if p.2.isEmpty then some (signed * (10 : ℚ) ^ p.1) else none
      | _ =>
        (pyDigitsVal r).bind fun p =>
          if p.2.isEmpty then some (signed * (10 : ℚ) ^ p.1) else none
    | _ => none

/-! ## Python `str()` of a float -/

/-- Decimal digits of a natural number (fueled worker). -/
def natToCharsAux : ℕ → ℕ → List Char → List Char
  | 0, _, acc => acc
  | fuel + 1, n, acc =>
    if n < 10 then Char.ofNat (48 + n) :: acc
    else natToCharsAux fuel (n / 10) (Char.ofNat (48 + n % 10) :: acc)

/-- Decimal digits of a natural number. -/
def natToChars (n : ℕ) : List Char := natToCharsAux (n + 1) n []

/-- `str()` of a non-negative float whose value is the given rational,
for values exactly representable with finitely many decimals (the engine
only ever substitutes one-decimal ratios).  Other denominators take an
arbitrary fallback spelling, unreachable from the engine. -/
def pyStrPos (q : ℚ) : List Char :=
  let n := q.num.toNat
  let d := q.den
  match (List.range 30).find? (fun k => d ∣ 10 ^ k) with
  | some 0 => natToChars n ++ ['.', '0']
  | some k =>
    let scaled := n * 10 ^ k / d
    let ip := scaled / 10 ^ k
    let fp := scaled % 10 ^ k
    let fchars := natToChars fp
    natToChars ip ++ '.' :: (List.replicate (k - fchars.length) '0' ++ fchars)
  | none => natToChars n ++ '.' :: natToChars d

/-- `str()` of a float modelled as a rational. -/
def pyStr (q : ℚ) : List Char :=
  if q < 0 then '-' :: pyStrPos (-q) else pyStrPos q

/-! ## `eval` of the sanitized arithmetic expression

`main.py` line 93 evaluates the sanitized expression with
`eval(expr, {"__builtins__": None}, {})`: no names are resolvable, so only
numeric literals, `+ - * / **`, unary signs and parentheses can evaluate.
This is modelled as an explicit tokenizer and recursive-descent parser
(Python grammar: `**` binds tighter than unary minus and is
right-associative).  Any lexical or syntax error, any division by zero and
any non-integer exponent yields `none` (the Python exception, caught by the
caller). -/

inductive Tok where
  | num (q : ℚ)
  | plus
  | minus
  | times
  | divide
  | power
  | lparen
  | rparen
  deriving DecidableEq, Repr

/-- Scan one number token: `digits [ '.' digits? ] | '.' digits` followed by
an optional exponent part.  Mirrors the CPython tokenizer on the sanitized
charset (`1.` and `.5` are single tokens; `1e` is a lexical error). -/
def scanNum (s : List Char) : Option (ℚ × List Char) :=
  match pyFloatMantissa s with
  | none => none
  | some (m, rest) =>
    match rest with
    | 'e' :: r | 'E' :: r =>
      (match r with
       | '-' :: r2 => (pyDigitsVal r2).map fun p => (m * (10 : ℚ) ^ (-p.1), p.2)
       | '+' :: r2 => (pyDigitsVal r2).map fun p => (m * (10 : ℚ) ^ p.1, p.2)
       | _ => (pyDigitsVal r).map fun p => (m * (10 : ℚ) ^ p.1, p.2))
    | _ => some (m, rest)

/-- Fueled tokenizer over the sanitized charset. -/
def tokenizeAux : ℕ → List Char → Option (List Tok)
  | 0, _ => none
  | _ + 1, [] => some []
  | fuel + 1, c :: rest =>
    if pyIsDigit c || c = '.' then
      match scanNum (c :: rest) with
      | none => none
      | some (q, r) => (tokenizeAux fuel r).map (Tok.num q :: ·)
    else if c = '+' then (tokenizeAux fuel rest).map (Tok.plus :: ·)
    else if c = '-' then (tokenizeAux fuel rest).map (Tok.minus :: ·)
    else if c = '*' then
      match rest with
      | '*' :: rest2 => (tokenizeAux fuel rest2).map (Tok.power :: ·)
      | _ => (tokenizeAux fuel rest).map (Tok.times :: ·)
    else if c = '/' then (tokenizeAux fuel rest).map (Tok.divide :: ·)
    else if c = '(' then (tokenizeAux fuel rest).map (Tok.lparen :: ·)
    else if c = ')' then (tokenizeAux fuel rest).map (Tok.rparen :: ·)
    else none

def tokenize (s : List Char) : Option (List Tok) :=
  tokenizeAux (s.length + 1) s

/-- Python `**` on rationals: only integer exponents stay rational;
`0 ** negative` is a `ZeroDivisionError`. -/
def qpow (b e : ℚ) : Option ℚ :=
  if e.den = 1 then
    if b = 0 ∧ e.num < 0 then none else some (b ^ e.num)
  else none

/-- Which grammar production a fueled parser step handles. -/
inductive PMode where
  | expr
  | exprRest
  | term
  | termRest
  | fact
  | pow
  | atom
  deriving DecidableEq, Repr

/-- One fueled recursive-descent parser for the Python expression grammar
restricted to the sanitized charset.  `acc` is the left operand for the
`Rest` modes (ignored otherwise).

  expr  := term (('+' | '-') term)*          -- left associative
  term  := fact (('*' | '/') fact)*          -- left associative
  fact  := ('+' | '-') fact | pow            -- unary sign
  pow   := atom ['**' fact]                  -- right associative, tighter
  atom  := number | '(' expr ')'
-/
def parseGo : ℕ → PMode → ℚ → List Tok → Option (ℚ × List Tok)
  | 0, _, _, _ => none
  | fuel + 1, m, acc, ts =>
    match m with
    | PMode.expr =>
      match parseGo fuel PMode.term 0 ts with
      | none => none
      | some (v, ts1) => parseGo fuel PMode.exprRest v ts1
    | PMode.exprRest =>
      match ts with
      | Tok.plus :: ts1 =>
        match parseGo fuel PMode.term 0 ts1 with
        | none => none
        | some (w, ts2) => parseGo fuel PMode.exprRest (acc + w) ts2
      | Tok.minus :: ts1 =>
        match parseGo fuel PMode.term 0 ts1 with
        | none => none
        | some (w, ts2) => parseGo fuel PMode.exprRest (acc - w) ts2
      | _ => some (acc, ts)
    | PMode.term =>
      match parseGo fuel PMode.fact 0 ts with
      | none => none
      | some (v, ts1) => parseGo fuel PMode.termRest v ts1
    | PMode.termRest =>
      match ts with
      | Tok.times :: ts1 =>
        match parseGo fuel PMode.fact 0 ts1 with
        | none => none
        | some (w, ts2) => parseGo fuel PMode.termRest (acc * w) ts2
      | Tok.divide :: ts1 =>
        match parseGo fuel PMode.fact 0 ts1 with
        | none => none
        | some (w, ts2) =>
          if w = 0 then none else parseGo fuel PMode.termRest (acc / w) ts2
      | _ => some (acc, ts)
    | PMode.fact =>
      match ts with
      | Tok.minus :: ts1 =>
        (parseGo fuel PMode.fact 0 ts1).map fun p => (-p.1, p.2)
      | Tok.plus :: ts1 => parseGo fuel PMode.fact 0 ts1
      | _ => parseGo fuel PMode.pow 0 ts
    | PMode.pow =>
      match parseGo fuel PMode.atom 0 ts with
      | none => none
      | some (v, ts1) =>
        match ts1 with
        | Tok.power :: ts2 =>
          match parseGo fuel PMode.fact 0 ts2 with
          | none => none
          | some (w, ts3) => (qpow v w).map fun r => (r, ts3)
        | _ => some (v, ts1)
    | PMode.atom =>
      match ts with
      | Tok.num q :: ts1 => some (q, ts1)
      | Tok.lparen :: ts1 =>
        match parseGo fuel PMode.expr 0 ts1 with
        | some (v, Tok.rparen :: ts2) => some (v, ts2)
        | _ => none
      | _ => none

/-- `eval(expr, {"__builtins__": None}, {})` from `main.py` line 93,
returning `none` for any exception. -/
def pyEval (s : List Char) : Option ℚ :=
  match tokenize s with
  | none => none
  | some ts =>
    match parseGo (s.length + ts.length + 16) PMode.expr 0 ts with
    | some (v, []) => some v
    | _ => none

/-! ## `parse_k_expression` (`main.py` lines 61-97) -/

/-- The preprocessing of `main.py` lines 72-73:
`str(k_str).strip().replace(' ', '')` then `.replace('^', '**')`. -/
def preprocessK (s : List Char) : List Char :=
  replaceSub ['^'] ['*', '*'] (removeSpaces (pyStrip s))

/-- `str(lam_safe)` of `main.py` lines 80-84: `lam_safe` is the ratio, or
`1e-9` when the ratio is zero (Python renders that float as `1e-09`). -/
def lamSafeStr (lam : ℚ) : List Char :=
  if lam = 0 then ['1', 'e', '-', '0', '9'] else pyStr lam

/-- The free-variable substitution of `main.py` lines 80-84: the string
`str(lam_safe)` replaces every occurrence of `lambda`, then of `λ`. -/
def substLambda (expr : List Char) (lam : ℚ) : List Char :=
  replaceSub ['λ'] (lamSafeStr lam) (replaceSub ['l', 'a', 'm', 'b', 'd', 'a'] (lamSafeStr lam) expr)

/-- `parse_k_expression` from `main.py` lines 61-97.  The Python `try`
wrapper makes the function total: every failure path returns the default
gain `0.01`. -/
def parse_k_expression (k : Option (List Char)) (lam : ℚ) : ℚ :=
  match k with
  | none => 1 / 100
  | some s =>
    let expr := preprocessK s
    if residueDigits expr then (pyFloat expr).getD (1 / 100)
    else
      let expr2 := substLambda expr lam
      if allowedOk expr2 then (pyEval expr2).getD (1 / 100) else 1 / 100

/-! ## The inverter power recurrence engine (`main.py` lines 150-218) -/

/-- One input row: the four passthrough columns and the numeric load
(column 5 of the dataframe). -/
structure LoadRecord where
  ts : String
  utc : String
  addr : String
  dtyp : String
  load : ℚ
  deriving DecidableEq, Repr

/-- One output row (`main.py` lines 196-207), Chinese labels
transliterated as in the file header. -/
structure OutputRecord where
  ts : String
  utc : String
  addr : String
  dtyp : String
  load : ℚ
  inv : ℚ
  pct : ℚ
  adj : ℚ
  aggr : ℚ
  adjRat : ℚ
  deriving DecidableEq, Repr

/-- All per-step quantities of the loop body, including the internal
`grid_i` and `lam_i` that are not emitted. -/
structure StepResult where
  invc : ℚ
  grid : ℚ
  lam : ℚ
  gain : ℚ
  adj : ℚ
  aggr : ℚ
  adjRat : ℚ
  pct : ℚ
  deriving DecidableEq, Repr

/-- The entry clamp of `main.py` lines 169-170:
`inv_curr = min(max(0.0, inv_curr), load_i)` then truncation. -/
def entryClamp (inv load : ℚ) : ℚ :=
  truncate_decimal (min (max 0 inv) load)

/-- The loop body of `main.py` lines 172-193, starting from the already
entry-clamped inverter output `invc`. -/
def stepCore (k : Option (List Char)) (invc load : ℚ) : StepResult :=
  let grid := truncate_decimal (load - invc)
  let lam := truncate_decimal (if load ≤ 0 then 0 else grid / load)
  let gain := parse_k_expression k lam
  let adj := truncate_decimal (gain * lam ^ 2 * load * 1)
  let aggr := truncate_decimal (load - invc)
  let adjRat := if aggr = 0 then (if 0 < adj then 9999 / 10 else 0)
                else truncate_decimal (adj / aggr)
  let pct := truncate_decimal (if load ≤ 0 then 0 else invc / load * 100)
  ⟨invc, grid, lam, gain, adj, aggr, adjRat, pct⟩

/-- One full step: entry clamp, then the loop body. -/
def stepCompute (k : Option (List Char)) (inv load : ℚ) : StepResult :=
  stepCore k (entryClamp inv load) load

/-- Building the emitted row (`main.py` lines 196-207): passthrough
columns, `truncate_decimal(load_i)` and the step quantities. -/
def emit (r : LoadRecord) (st : StepResult) : OutputRecord :=
  ⟨r.ts, r.utc, r.addr, r.dtyp, truncate_decimal r.load,
   st.invc, st.pct, st.adj, st.aggr, st.adjRat⟩

/-- The state carry of `main.py` lines 210-216: add the adjustment, then
the lookahead clamp against the next load. -/
def carryState (st : StepResult) (rest : List LoadRecord) : ℚ :=
  let carried := st.invc + st.adj
  match rest with
  | [] => carried
  | r2 :: _ => if r2.load < carried then truncate_decimal r2.load else carried

/-- The loop of `main.py` lines 165-216 (with the lookahead clamp). -/
def simLoop (k : Option (List Char)) : List LoadRecord → ℚ → List OutputRecord
  | [], _ => []
  | r :: rest, inv =>
    let st := stepCompute k inv r.load
    emit r st :: simLoop k rest (carryState st rest)

/-- The same loop without the lookahead clamp of lines 212-216: the state
carried into the next step is just `inv_curr + inc_i`. -/
def simLoopNoLookahead (k : Option (List Char)) :
    List LoadRecord → ℚ → List OutputRecord
  | [], _ => []
  | r :: rest, inv =>
    let st := stepCompute k inv r.load
    emit r st :: simLoopNoLookahead k rest (st.invc + st.adj)

/-- `calculate_inverter_power` from `main.py` lines 150-218.  On an empty
input the initial access `load_series[0]` (line 163) fails, modelled as
`none`; otherwise the initial inverter power is pre-clamped to
`min(max(0.0, initial), load_series[0])` and the loop runs. -/
def calculate_inverter_power (recs : List LoadRecord) (initial : ℚ)
    (k : Option (List Char)) : Option (List OutputRecord) :=
  match recs with
  | [] => none
  | r0 :: _ => some (simLoop k recs (min (max 0 initial) r0.load))

/-- Variant of `calculate_inverter_power` that omits the lookahead clamp
(`main.py` lines 212-216) and otherwise runs identically. -/
def calculate_inverter_power_no_lookahead (recs : List LoadRecord)
    (initial : ℚ) (k : Option (List Char)) : Option (List OutputRecord) :=
  match recs with
  | [] => none
  | r0 :: _ => some (simLoopNoLookahead k recs (min (max 0 initial) r0.load))

/-! ## Elementary facts about the truncation -/

theorem truncate_le_self (v : ℚ) (d : ℕ) : truncate_decimal v d ≤ v := by
  unfold truncate_decimal
  have h10 : (0 : ℚ) < 10 ^ d := by positivity
  rw [div_le_iff₀ h10]
  exact Int.floor_le _

theorem truncate_nonneg {v : ℚ} (h : 0 ≤ v) {d : ℕ} : 0 ≤ truncate_decimal v d := by
  unfold truncate_decimal
  have h10 : (0 : ℚ) < 10 ^ d := by positivity
  have hf : (0 : ℤ) ≤ ⌊v * 10 ^ d⌋ := Int.floor_nonneg.mpr (by positivity)
  have : (0 : ℚ) ≤ (⌊v * 10 ^ d⌋ : ℚ) := by exact_mod_cast hf
  exact div_nonneg this h10.le

theorem truncate_mono {u v : ℚ} (h : u ≤ v) (d : ℕ) :
    truncate_decimal u d ≤ truncate_decimal v d := by
  unfold truncate_decimal
  have h10 : (0 : ℚ) < 10 ^ d := by positivity
  have hf : (⌊u * 10 ^ d⌋ : ℚ) ≤ (⌊v * 10 ^ d⌋ : ℚ) := by
    exact_mod_cast Int.floor_mono (mul_le_mul_of_nonneg_right h h10.le)
  exact (div_le_div_iff_of_pos_right h10).mpr hf

theorem truncate_idem (v : ℚ) (d : ℕ) :
    truncate_decimal (truncate_decimal v d) d = truncate_decimal v d := by
  unfold truncate_decimal
  have h10 : (10 : ℚ) ^ d ≠ 0 := by positivity
  rw [div_mul_cancel₀ _ h10, Int.floor_intCast]

theorem truncate_zero (d : ℕ) : truncate_decimal 0 d = 0 := by
  unfold truncate_decimal
  simp

/-! ## C7 -/

/-- C7: the truncation used for every derived quantity satisfies
`truncate v = ⌊v * 10⌋ / 10` for every rational `v` (floor semantics, never
round-to-nearest: raw `0.37` truncates to `0.3`, not `0.4`), and it biases
every quantity downward (`truncate v ≤ v`). -/
theorem c7_truncation_law :
    (∀ v : ℚ, truncate_decimal v = ⌊v * 10⌋ / 10 ∧ truncate_decimal v ≤ v) ∧
    truncate_decimal (37 / 100) = 3 / 10 ∧ truncate_decimal (37 / 100) ≠ 4 / 10 := by
  refine ⟨fun v => ⟨by rw [truncate_decimal, pow_one], truncate_le_self v 1⟩, by decide, by decide⟩

/-! ## C3 -/

/-- C3: the simulation fails (returns no result) precisely on the empty
load sequence; the spec's `EmptyInputError` names this failure, realised in
the source as the out-of-bounds access `load_series[0]` at line 163. -/
theorem c3_empty_input (recs : List LoadRecord) (initial : ℚ)
    (k : Option (List Char)) :
    calculate_inverter_power recs initial k = none ↔ recs = [] := by
  cases recs <;> simp [calculate_inverter_power]

/-! ## C1 -/

/-- The constant gain expression `"0.01"` of the end-to-end scenario. -/
def k01 : Option (List Char) := some "0.01".data

/-- The load sequence `[100.0, 90.0, 80.0]` of the end-to-end scenario
(passthrough columns arbitrary). -/
def loads3 : List LoadRecord :=
  [⟨"t0", "u0", "a0", "d0", 100⟩, ⟨"t1", "u1", "a1", "d1", 90⟩,
   ⟨"t2", "u2", "a2", "d2", 80⟩]

/-- C1: for loads `[100, 90, 80]`, initial inverter power `10` and gain
`"0.01"`, step 0 emits `inverter_output = 10`, internal `grid = 90` and
`λ = 0.9`, `adjustment = 0.8`, `aggressive = 90`, `adjustment_ratio = 0`;
the carried state into step 1 is `10.8`, the lookahead clamp does not fire
(`10.8 ≤ 90`), and step 1's entry clamp yields `10.8` with
`grid = truncate(90 - 10.8) = 79.2`.  The full emitted trace is listed. -/
theorem c1_end_to_end_trace :
    calculate_inverter_power loads3 10 k01 =
      some [⟨"t0", "u0", "a0", "d0", 100, 10, 10, 4/5, 90, 0⟩,
            ⟨"t1", "u1", "a1", "d1", 90, 54/5, 12, 1/2, 396/5, 0⟩,
            ⟨"t2", "u2", "a2", "d2", 80, 113/10, 141/10, 1/2, 687/10, 0⟩] ∧
    (stepCompute k01 10 100).invc = 10 ∧
    (stepCompute k01 10 100).grid = 90 ∧
    (stepCompute k01 10 100).lam = 9/10 ∧
    (stepCompute k01 10 100).adj = 4/5 ∧
    (stepCompute k01 10 100).aggr = 90 ∧
    (stepCompute k01 10 100).adjRat = 0 ∧
    (stepCompute k01 10 100).invc + (stepCompute k01 10 100).adj = 54/5 ∧
    ¬((90 : ℚ) < 54/5) ∧
    carryState (stepCompute k01 10 100) (loads3.drop 1) = 54/5 ∧
    entryClamp (54/5) 90 = 54/5 ∧
    (stepCompute k01 (54/5) 90).grid = 396/5 := by
  decide

/-! ## C8 -/

/-- The value after the next step's entry clamp is unchanged by the
lookahead clamp, for every carried value and every next load. -/
theorem entryClamp_lookahead (next x : ℚ) :
    entryClamp (if next < x then truncate_decimal next else x) next =
      entryClamp x next := by
  by_cases h : next < x
  · rw [if_pos h]
    unfold entryClamp
    by_cases hn : (0 : ℚ) ≤ next
    · have h1 : 0 ≤ truncate_decimal next := truncate_nonneg hn
      have h2 : truncate_decimal next ≤ next := truncate_le_self next 1
      rw [max_eq_right h1, min_eq_left h2, truncate_idem,
          max_eq_right (le_of_lt (lt_of_le_of_lt hn h)), min_eq_right h.le]
    · push_neg at hn
      have h2 : truncate_decimal next ≤ next := truncate_le_self next 1
      rw [max_eq_left (le_trans h2 hn.le), min_eq_right hn.le,
          min_eq_right (le_trans hn.le (le_max_left 0 x))]
  · rw [if_neg h]

/-- The with-lookahead loop from any pre-entry state `x` equals the
no-lookahead loop from any pre-entry state `y`, provided both states agree
after the first entry clamp. -/
theorem simLoop_eq_noLookahead (k : Option (List Char)) (recs : List LoadRecord) :
    ∀ x y : ℚ,
      (∀ r rest, recs = r :: rest → entryClamp x r.load = entryClamp y r.load) →
      simLoop k recs x = simLoopNoLookahead k recs y := by
  induction recs with
  | nil => intro x y _; rfl
  | cons r rest ih =>
    intro x y h
    have hxy : entryClamp x r.load = entryClamp y r.load := h r rest rfl
    have hstep : stepCompute k x r.load = stepCompute k y r.load := by
      unfold stepCompute; rw [hxy]
    simp only [simLoop, simLoopNoLookahead, hstep]
    congr 1
    apply ih
    intro r2 rest2 hr2
    subst hr2
    simp only [carryState]
    exact entryClamp_lookahead r2.load _

/-- C8: the simulation with the lookahead clamp (`main.py` lines 212-216)
produces exactly the same output sequence as the variant that omits it and
relies solely on the next step's entry clamp, for every input. -/
theorem c8_lookahead_redundant (recs : List LoadRecord) (initial : ℚ)
    (k : Option (List Char)) :
    calculate_inverter_power recs initial k =
      calculate_inverter_power_no_lookahead recs initial k := by
  cases recs with
  | nil => rfl
  | cons r0 rest =>
    simp only [calculate_inverter_power, calculate_inverter_power_no_lookahead]
    congr 1
    exact simLoop_eq_noLookahead k _ _ _ (fun r rest' _ => rfl)

/-! ## Structural lemmas about the loop, for the record-level claims -/

theorem simLoop_length (k : Option (List Char)) (recs : List LoadRecord) :
    ∀ inv : ℚ, (simLoop k recs inv).length = recs.length := by
  induction recs with
  | nil => intro inv; rfl
  | cons r rest ih => intro inv; simp [simLoop, ih]

/-- Every emitted record is `emit` of `stepCompute` at the load of the same
position, for some incoming state. -/
theorem simLoop_get (k : Option (List Char)) (recs : List LoadRecord) :
    ∀ (inv : ℚ) (i : ℕ) (hi : i < (simLoop k recs inv).length)
      (hi' : i < recs.length),
      ∃ s : ℚ, (simLoop k recs inv).get ⟨i, hi⟩ =
        emit (recs.get ⟨i, hi'⟩) (stepCompute k s (recs.get ⟨i, hi'⟩).load) := by
  induction recs with
  | nil => intro inv i hi hi'; exact absurd hi' (by simp)
  | cons r rest ih =>
    intro inv i hi hi'
    cases i with
    | zero => exact ⟨inv, rfl⟩
    | succ n =>
      have hn' : n < rest.length := Nat.lt_of_succ_lt_succ hi'
      have hn : n < (simLoop k rest (carryState (stepCompute k inv r.load) rest)).length := by
        rw [simLoop_length]; exact hn'
      obtain ⟨s, hs⟩ := ih (carryState (stepCompute k inv r.load) rest) n hn hn'
      exact ⟨s, hs⟩

/-- Every member of the output list is `emit` of `stepCompute` at the load
of some input record. -/
theorem simLoop_mem (k : Option (List Char)) (recs : List LoadRecord) :
    ∀ (inv : ℚ) (rec : OutputRecord), rec ∈ simLoop k recs inv →
      ∃ (r : LoadRecord) (s : ℚ), r ∈ recs ∧ rec = emit r (stepCompute k s r.load) := by
  induction recs with
  | nil => intro inv rec h; simp [simLoop] at h
  | cons r rest ih =>
    intro inv rec h
    simp only [simLoop, List.mem_cons] at h
    rcases h with h | h
    · exact ⟨r, inv, List.mem_cons_self _ _, h⟩
    · obtain ⟨r', s, hr', heq⟩ := ih _ _ h
      exact ⟨r', s, List.mem_cons_of_mem _ hr', heq⟩

/-- Inversion of a successful run: the input was non-empty and the output
is the loop from the pre-clamped initial state. -/
theorem calculate_some {recs : List LoadRecord} {initial : ℚ}
    {k : Option (List Char)} {out : List OutputRecord}
    (hout : calculate_inverter_power recs initial k = some out) :
    ∃ r0 rest, recs = r0 :: rest ∧
      out = simLoop k recs (min (max 0 initial) r0.load) := by
  cases recs with
  | nil => exact absurd hout (by simp [calculate_inverter_power])
  | cons r0 rest =>
    exact ⟨r0, rest, rfl, (Option.some.inj hout).symm⟩

/-! ## Per-step bounds -/

theorem entryClamp_nonneg {load : ℚ} (hl : 0 ≤ load) (inv : ℚ) :
    0 ≤ entryClamp inv load :=
  truncate_nonneg (le_min (le_max_left 0 inv) hl)

theorem entryClamp_le (inv load : ℚ) : entryClamp inv load ≤ load :=
  le_trans (truncate_le_self _ 1) (min_le_right _ _)

/-! ## C2 -/

/-- C2: on any load sequence of the data model (loads non-negative), any
initial inverter power and any gain expression, every emitted record
satisfies `0 ≤ inverter_output ≤ load`, where `inverter_output` is the
post-entry-clamp value of its step and `load` the raw load of the same
position. -/
theorem c2_clamp_invariant (recs : List LoadRecord) (initial : ℚ)
    (k : Option (List Char)) (out : List OutputRecord)
    (hl : ∀ r ∈ recs, 0 ≤ r.load)
    (hout : calculate_inverter_power recs initial k = some out)
    (i : ℕ) (hi : i < out.length) (hi' : i < recs.length) :
    0 ≤ (out.get ⟨i, hi⟩).inv ∧
      (out.get ⟨i, hi⟩).inv ≤ (recs.get ⟨i, hi'⟩).load := by
  obtain ⟨r0, rest, hrecs, hloop⟩ := calculate_some hout
  subst hloop
  obtain ⟨s, hs⟩ := simLoop_get k recs _ i hi hi'
  rw [hs]
  have hload : 0 ≤ (recs.get ⟨i, hi'⟩).load := hl _ (recs.get_mem _ _)
  exact ⟨entryClamp_nonneg hload s, entryClamp_le s _⟩

/-- Witness for C2 at the run on the single load `5` with initial power
`10` (entry clamp brings the state down to the load). -/
theorem c2_clamp_invariant_witness :
    0 ≤ (⟨"w", "w", "w", "w", 5, 5, 100, 0, 0, 0⟩ : OutputRecord).inv ∧
      (⟨"w", "w", "w", "w", 5, 5, 100, 0, 0, 0⟩ : OutputRecord).inv ≤
        (⟨"w", "w", "w", "w", (5 : ℚ)⟩ : LoadRecord).load :=
  c2_clamp_invariant [⟨"w", "w", "w", "w", 5⟩] 10 none
    [⟨"w", "w", "w", "w", 5, 5, 100, 0, 0, 0⟩]
    (by decide) (by decide) 0 (by decide) (by decide)

/-! ## C4 -/

/-- The emitted ratio field is exactly the sentinel formula applied to the
emitted adjustment and aggressive-adjustment fields, by construction of the
step. -/
theorem stepCore_adjRat_formula (k : Option (List Char)) (invc load : ℚ) :
    (stepCore k invc load).adjRat =
      if (stepCore k invc load).aggr = 0 then
        (if 0 < (stepCore k invc load).adj then 9999 / 10 else 0)
      else truncate_decimal ((stepCore k invc load).adj / (stepCore k invc load).aggr) :=
  rfl

/-- C4: at every step of every run, the emitted `adjustment_ratio` equals
`999.9` when `aggressive_adjustment = 0` and `adjustment > 0`, equals `0`
when `aggressive_adjustment = 0` and `adjustment ≤ 0`, and equals
`truncate(adjustment / aggressive_adjustment)` otherwise. -/
theorem c4_adjRat_sentinel (recs : List LoadRecord) (initial : ℚ)
    (k : Option (List Char)) (out : List OutputRecord)
    (hout : calculate_inverter_power recs initial k = some out)
    (rec : OutputRecord) (hrec : rec ∈ out) :
    rec.adjRat = if rec.aggr = 0 then (if 0 < rec.adj then 9999 / 10 else 0)
                 else truncate_decimal (rec.adj / rec.aggr) := by
  obtain ⟨r0, rest, hrecs, hloop⟩ := calculate_some hout
  subst hloop
  obtain ⟨r, s, _, rfl⟩ := simLoop_mem k recs _ rec hrec
  exact stepCore_adjRat_formula k (entryClamp s r.load) r.load

/-- Witness for C4: the single-step run on load `100` with initial power
`10` and the default gain, whose record has `adjustment = 0.8`,
`aggressive = 90` and ratio `truncate(0.8 / 90) = 0`. -/
theorem c4_adjRat_sentinel_witness :
    (0 : ℚ) = if (90 : ℚ) = 0 then (if 0 < (4/5 : ℚ) then 9999 / 10 else 0)
              else truncate_decimal ((4/5) / 90) :=
  c4_adjRat_sentinel [⟨"x", "x", "x", "x", 100⟩] 10 none
    [⟨"x", "x", "x", "x", 100, 10, 10, 4/5, 90, 0⟩]
    (by decide) ⟨"x", "x", "x", "x", 100, 10, 10, 4/5, 90, 0⟩ (by decide)

/-! ## C9 -/

/-- Per-step percent facts: for a positive load the emitted percent is the
truncated `inv / load * 100` and lies in `[0, 100]`; for a zero load it is
`0`. -/
theorem stepCompute_pct (k : Option (List Char)) (s load : ℚ) :
    (0 < load →
       0 ≤ (stepCompute k s load).pct ∧ (stepCompute k s load).pct ≤ 100 ∧
       (stepCompute k s load).pct =
         truncate_decimal ((stepCompute k s load).invc / load * 100)) ∧
    (load = 0 → (stepCompute k s load).pct = 0) := by
  constructor
  · intro hl
    have hinv0 : 0 ≤ entryClamp s load := entryClamp_nonneg hl.le s
    have hinv1 : entryClamp s load ≤ load := entryClamp_le s load
    have hpct : (stepCompute k s load).pct =
        truncate_decimal (entryClamp s load / load * 100) := by
      show truncate_decimal (if load ≤ 0 then 0 else entryClamp s load / load * 100) = _
      rw [if_neg (not_le.mpr hl)]
    refine ⟨?_, ?_, hpct⟩
    · rw [hpct]; exact truncate_nonneg (by positivity)
    · rw [hpct]
      refine le_trans (truncate_le_self _ 1) ?_
      have hdiv : entryClamp s load / load ≤ 1 := (div_le_one hl).mpr hinv1
      calc entryClamp s load / load * 100 ≤ 1 * 100 :=
            mul_le_mul_of_nonneg_right hdiv (by norm_num)
        _ = 100 := one_mul 100
  · intro hl
    show truncate_decimal (if load ≤ 0 then 0 else entryClamp s load / load * 100) = 0
    rw [if_pos (le_of_eq hl), truncate_zero]

/-- C9: for every emitted record, when the raw load of its position is
positive the percent field is `truncate(inverter_output / load * 100)` and
lies in `[0, 100]`; when that load is zero the percent field is `0`. -/
theorem c9_percent_bound (recs : List LoadRecord) (initial : ℚ)
    (k : Option (List Char)) (out : List OutputRecord)
    (hout : calculate_inverter_power recs initial k = some out)
    (i : ℕ) (hi : i < out.length) (hi' : i < recs.length) :
    (0 < (recs.get ⟨i, hi'⟩).load →
       0 ≤ (out.get ⟨i, hi⟩).pct ∧ (out.get ⟨i, hi⟩).pct ≤ 100 ∧
       (out.get ⟨i, hi⟩).pct =
         truncate_decimal ((out.get ⟨i, hi⟩).inv / (recs.get ⟨i, hi'⟩).load * 100)) ∧
    ((recs.get ⟨i, hi'⟩).load = 0 → (out.get ⟨i, hi⟩).pct = 0) := by
  obtain ⟨r0, rest, hrecs, hloop⟩ := calculate_some hout
  subst hloop
  obtain ⟨s, hs⟩ := simLoop_get k recs _ i hi hi'
  rw [hs]
  exact stepCompute_pct k s (recs.get ⟨i, hi'⟩).load

/-- Witness for C9: the single-step run on load `100` with initial power
`10`, whose record has percent `10 = truncate(10 / 100 * 100)`. -/
theorem c9_percent_bound_witness :
    0 ≤ (10 : ℚ) ∧ (10 : ℚ) ≤ 100 ∧
      (10 : ℚ) = truncate_decimal ((10 : ℚ) / 100 * 100) :=
  (c9_percent_bound [⟨"y", "y", "y", "y", 100⟩] 10 none
    [⟨"y", "y", "y", "y", 100, 10, 10, 4/5, 90, 0⟩]
    (by decide) 0 (by decide) (by decide)).1 (by norm_num)

/-! ## Character-class lemmas for the evaluator claims -/

/-- The character class of the numeric-literal fast path: ASCII digit,
dot or dash. -/
def ddd (c : Char) : Bool := pyIsDigit c || c = '.' || c = '-'

theorem replaceSubAux_id {S : Char → Bool} {p : Char} (ps repl : List Char)
    (hp : S p = false) :
    ∀ (fuel : ℕ) (s : List Char), (∀ c ∈ s, S c = true) →
      replaceSubAux (p :: ps) repl fuel s = s := by
  intro fuel
  induction fuel with
  | zero => intro s _; rfl
  | succ n ih =>
    intro s h
    cases s with
    | nil => rfl
    | cons c rest =>
      have hc : S c = true := h c (List.mem_cons_self _ _)
      have hpc : ¬ p = c := fun he => by rw [he, hc] at hp; cases hp
      have hpre : isPre (p :: ps) (c :: rest) = false := by
        simp [isPre, hpc]
      have hrest := ih rest (fun c hc => h c (List.mem_cons_of_mem _ hc))
      simp only [replaceSubAux, hpre]
      simp [hrest]

/-- A pattern whose first character lies outside a class covering the
string never occurs in it, so the replacement is the identity. -/
theorem replaceSub_id {S : Char → Bool} {p : Char} (ps repl : List Char)
    (hp : S p = false) (s : List Char) (h : ∀ c ∈ s, S c = true) :
    replaceSub (p :: ps) repl s = s := by
  unfold replaceSub
  rw [if_neg (by simp)]
  exact replaceSubAux_id ps repl hp s.length s h

/-- When the fast-path test holds, every character of the string is a
digit, a dot or a dash. -/
theorem residueDigits_chars {s : List Char} (h : residueDigits s = true) :
    ∀ c ∈ s, ddd c = true := by
  intro c hc
  unfold ddd
  by_cases hd : (c = '.' || c = '-') = true
  · rw [Bool.or_eq_true] at hd
    rcases hd with h1 | h1 <;> simp [h1]
  · have hcres : c ∈ residue s := by
      unfold residue
      rw [List.mem_filter]
      refine ⟨hc, ?_⟩
      simp only [Bool.not_eq_true] at hd
      simp [hd]
    unfold residueDigits at h
    rw [Bool.and_eq_true, List.all_eq_true] at h
    simp [h.2 c hcres]

theorem allowed_of_ddd {c : Char} (h : ddd c = true) : isAllowed c = true := by
  unfold ddd at h
  rw [Bool.or_eq_true, Bool.or_eq_true] at h
  rcases h with h1 | h1
  · rcases h1 with h2 | h2
    · unfold isAllowed pyIsDigit at *
      simp [h2]
    · have : c = '.' := by simpa using h2
      subst this; decide
  · have : c = '-' := by simpa using h1
    subst this; decide


theorem allowedOk_of_ddd {s : List Char} (h : ∀ c ∈ s, ddd c = true) :
    allowedOk s = true := by
  unfold allowedOk
  rw [List.all_eq_true]
  exact fun c hc => allowed_of_ddd (h c hc)

/-- Substitution is the identity on digit/dot/dash strings: neither
`lambda` nor `λ` can occur. -/
theorem substLambda_id {s : List Char} (h : ∀ c ∈ s, ddd c = true) (lam : ℚ) :
    substLambda s lam = s := by
  unfold substLambda
  rw [replaceSub_id (S := ddd) _ _ (by decide) s h,
      replaceSub_id (S := ddd) _ _ (by decide) s h]

theorem ddd_not_ws {c : Char} (h : ddd c = true) : c.isWhitespace = false := by
  by_cases hws : c.isWhitespace = true
  · exfalso
    have : ((c = ' ' ∨ c = '\t') ∨ c = '\x0d') ∨ c = '\n' := by
      simpa [Char.isWhitespace] using hws
    rcases this with ((rfl | rfl) | rfl) | rfl <;> exact absurd h (by decide)
  · simpa using hws

theorem ddd_not_space {c : Char} (h : ddd c = true) : (c = ' ') = False := by
  simp only [eq_iff_iff, iff_false]
  intro hc
  subst hc
  exact absurd h (by decide)

theorem dropWhile_id {p : Char → Bool} {s : List Char}
    (h : ∀ c ∈ s, p c = false) : s.dropWhile p = s := by
  cases s with
  | nil => rfl
  | cons c rest => simp [List.dropWhile, h c (List.mem_cons_self _ _)]

theorem pyStrip_id {s : List Char} (h : ∀ c ∈ s, c.isWhitespace = false) :
    pyStrip s = s := by
  unfold pyStrip
  rw [dropWhile_id h,
      dropWhile_id (fun c hc => h c (List.mem_reverse.mp hc)),
      List.reverse_reverse]

theorem removeSpaces_id {s : List Char} (h : ∀ c ∈ s, ddd c = true) :
    removeSpaces s = s := by
  unfold removeSpaces
  rw [List.filter_eq_self]
  intro c hc
  simp [ddd_not_space (h c hc)]

/-- Preprocessing is the identity on digit/dot/dash strings: there is no
whitespace to strip, no space to remove and no caret to rewrite. -/
theorem preprocessK_id {s : List Char} (h : ∀ c ∈ s, ddd c = true) :
    preprocessK s = s := by
  unfold preprocessK
  rw [pyStrip_id (fun c hc => ddd_not_ws (h c hc)),
      removeSpaces_id h,
      replaceSub_id (S := ddd) _ _ (by decide) s h]

/-! ## C5 -/

/-- The evaluator, unfolded to its branch structure. -/
theorem parse_k_expression_eq (s : List Char) (lam : ℚ) :
    parse_k_expression (some s) lam =
      if residueDigits (preprocessK s) then (pyFloat (preprocessK s)).getD (1 / 100)
      else if allowedOk (substLambda (preprocessK s) lam) then
        (pyEval (substLambda (preprocessK s) lam)).getD (1 / 100)
      else 1 / 100 :=
  rfl

/-- C5: the evaluator is a total function into the rationals (the Python
`try` wrapper catches every exception); whenever the expression after
free-variable substitution contains a character outside the charset
`0-9 + - * / . ( ) e E` it returns the default gain `0.01`; and in every
case the result is either the default `0.01` or the successful numeric
evaluation of one of the two stages (literal fast path, or sanitized
arithmetic evaluation) — so any stage failure falls back to `0.01`. -/
theorem c5_evaluator_total (s : List Char) (lam : ℚ) :
    (allowedOk (substLambda (preprocessK s) lam) = false →
       parse_k_expression (some s) lam = 1 / 100) ∧
    (parse_k_expression (some s) lam = 1 / 100 ∨
       ∃ q, parse_k_expression (some s) lam = q ∧
         (pyFloat (preprocessK s) = some q ∨
          pyEval (substLambda (preprocessK s) lam) = some q)) := by
  rw [parse_k_expression_eq]
  by_cases hfast : residueDigits (preprocessK s) = true
  · constructor
    · intro hbad
      exfalso
      have hchars := residueDigits_chars hfast
      rw [substLambda_id hchars lam, allowedOk_of_ddd hchars] at hbad
      cases hbad
    · rw [if_pos hfast]
      cases hq : pyFloat (preprocessK s) with
      | none => left; rfl
      | some q => right; exact ⟨q, rfl, Or.inl rfl⟩
  · have hfast' : residueDigits (preprocessK s) = false := by
      simpa using hfast
    rw [hfast']
    constructor
    · intro hbad
      rw [hbad]
      rfl
    · by_cases hok : allowedOk (substLambda (preprocessK s) lam) = true
      · rw [hok]
        cases hq : pyEval (substLambda (preprocessK s) lam) with
        | none => left; rfl
        | some q => right; exact ⟨q, rfl, Or.inr rfl⟩
      · left
        rw [(by simpa using hok : allowedOk (substLambda (preprocessK s) lam) = false)]
        rfl

/-- Witness for C5: `"abc"` survives substitution unchanged, fails the
charset check, and the evaluator returns the default gain. -/
theorem c5_evaluator_total_witness :
    parse_k_expression (some ['a', 'b', 'c']) (3 / 10) = 1 / 100 :=
  (c5_evaluator_total ['a', 'b', 'c'] (3 / 10)).1 (by decide)

/-! ## C10: failure of `eval` on dot/dash-only strings -/

theorem takeWhile_digit_dotdash {s : List Char}
    (h : ∀ c ∈ s, (c = '.' || c = '-') = true) :
    s.takeWhile pyIsDigit = [] := by
  cases s with
  | nil => rfl
  | cons c rest =>
    have hc := h c (List.mem_cons_self _ _)
    rw [Bool.or_eq_true] at hc
    have hcd : pyIsDigit c = false := by
      rcases hc with h1 | h1
      · have : c = '.' := by simpa using h1
        subst this; decide
      · have : c = '-' := by simpa using h1
        subst this; decide
    simp [List.takeWhile, hcd]

theorem dropWhile_digit_dotdash {s : List Char}
    (h : ∀ c ∈ s, (c = '.' || c = '-') = true) :
    s.dropWhile pyIsDigit = s := by
  apply dropWhile_id
  intro c hc
  have hcc := h c hc
  rw [Bool.or_eq_true] at hcc
  rcases hcc with h1 | h1
  · have : c = '.' := by simpa using h1
    subst this; decide
  · have : c = '-' := by simpa using h1
    subst this; decide

/-- No float mantissa starts in a dot/dash-only string. -/
theorem pyFloatMantissa_dotdash {s : List Char}
    (h : ∀ c ∈ s, (c = '.' || c = '-') = true) :
    pyFloatMantissa s = none := by
  unfold pyFloatMantissa
  rw [takeWhile_digit_dotdash h, dropWhile_digit_dotdash h]
  cases s with
  | nil => rfl
  | cons c rest =>
    have hc := h c (List.mem_cons_self _ _)
    rw [Bool.or_eq_true] at hc
    rcases hc with h1 | h1
    · have hcd : c = '.' := by simpa using h1
      subst hcd
      have hrest : ∀ c ∈ rest, (c = '.' || c = '-') = true :=
        fun c hc => h c (List.mem_cons_of_mem _ hc)
      simp [takeWhile_digit_dotdash hrest]
    · have hcd : c = '-' := by simpa using h1
      subst hcd
      rfl

/-- The tokenizer fails on any dot/dash-only string containing a dot. -/
theorem tokenizeAux_dotdash {s : List Char} :
    ∀ fuel : ℕ, (∀ c ∈ s, (c = '.' || c = '-') = true) → '.' ∈ s →
      tokenizeAux fuel s = none := by
  induction s with
  | nil => intro fuel _ hdot; cases hdot
  | cons c rest ih =>
    intro fuel h hdot
    cases fuel with
    | zero => rfl
    | succ n =>
      have hc := h c (List.mem_cons_self _ _)
      rw [Bool.or_eq_true] at hc
      rcases hc with h1 | h1
      · have hcd : c = '.' := by simpa using h1
        subst hcd
        have hscan : scanNum ('.' :: rest) = none := by
          unfold scanNum
          rw [pyFloatMantissa_dotdash h]
        simp [tokenizeAux, hscan]
      · have hcd : c = '-' := by simpa using h1
        subst hcd
        have hdotrest : '.' ∈ rest := by
          rcases List.mem_cons.mp hdot with h2 | h2
          · cases h2
          · exact h2
        have hrest : ∀ c ∈ rest, (c = '.' || c = '-') = true :=
          fun c hc => h c (List.mem_cons_of_mem _ hc)
        have hd : pyIsDigit '-' = false := by decide
        simp [tokenizeAux, hd, ih n hrest hdotrest]

/-- On an all-dash string the tokenizer yields only minus tokens. -/
theorem tokenizeAux_dash {s : List Char} :
    ∀ (fuel : ℕ) (ts : List Tok), tokenizeAux fuel s = some ts →
      (∀ c ∈ s, c = '-') → ∀ t ∈ ts, t = Tok.minus := by
  induction s with
  | nil =>
    intro fuel ts htok _ t ht
    cases fuel with
    | zero => cases htok
    | succ n =>
      obtain rfl := Option.some.inj htok
      cases ht
  | cons c rest ih =>
    intro fuel ts htok h t ht
    obtain rfl : c = '-' := h c (List.mem_cons_self _ _)
    cases fuel with
    | zero => cases htok
    | succ n =>
      have htok' : (tokenizeAux n rest).map (Tok.minus :: ·) = some ts := htok
      obtain ⟨ts', hts', rfl⟩ := Option.map_eq_some'.mp htok'
      rcases List.mem_cons.mp ht with rfl | ht'
      · rfl
      · exact ih n ts' hts' (fun c hc => h c (List.mem_cons_of_mem _ hc)) t ht'

/-- An all-minus token list has no atom. -/
theorem parseGo_atom_minus :
    ∀ (fuel : ℕ) (ts : List Tok), (∀ t ∈ ts, t = Tok.minus) →
      parseGo fuel PMode.atom 0 ts = none := by
  intro fuel ts h
  cases fuel with
  | zero => rfl
  | succ n =>
    cases ts with
    | nil => rfl
    | cons t ts' =>
      obtain rfl : t = Tok.minus := h t (List.mem_cons_self _ _)
      rfl

theorem parseGo_pow_minus :
    ∀ (fuel : ℕ) (ts : List Tok), (∀ t ∈ ts, t = Tok.minus) →
      parseGo fuel PMode.pow 0 ts = none := by
  intro fuel ts h
  cases fuel with
  | zero => rfl
  | succ n =>
    simp [parseGo, parseGo_atom_minus n ts h]

theorem parseGo_fact_minus :
    ∀ (fuel : ℕ) (ts : List Tok), (∀ t ∈ ts, t = Tok.minus) →
      parseGo fuel PMode.fact 0 ts = none := by
  intro fuel
  induction fuel with
  | zero => intro ts _; rfl
  | succ n ih =>
    intro ts h
    cases ts with
    | nil => exact parseGo_pow_minus n [] (by intro t ht; cases ht)
    | cons t ts' =>
      obtain rfl : t = Tok.minus := h t (List.mem_cons_self _ _)
      have : parseGo n PMode.fact 0 ts' = none :=
        ih ts' (fun t ht => h t (List.mem_cons_of_mem _ ht))
      simp [parseGo, this]

theorem parseGo_term_minus :
    ∀ (fuel : ℕ) (ts : List Tok), (∀ t ∈ ts, t = Tok.minus) →
      parseGo fuel PMode.term 0 ts = none := by
  intro fuel ts h
  cases fuel with
  | zero => rfl
  | succ n => simp [parseGo, parseGo_fact_minus n ts h]

theorem parseGo_expr_minus :
    ∀ (fuel : ℕ) (ts : List Tok), (∀ t ∈ ts, t = Tok.minus) →
      parseGo fuel PMode.expr 0 ts = none := by
  intro fuel ts h
  cases fuel with
  | zero => rfl
  | succ n => simp [parseGo, parseGo_term_minus n ts h]

/-- `eval` fails on every string consisting solely of dots and dashes. -/
theorem pyEval_dotdash {s : List Char}
    (h : ∀ c ∈ s, (c = '.' || c = '-') = true) : pyEval s = none := by
  by_cases hdot : '.' ∈ s
  · unfold pyEval tokenize
    rw [tokenizeAux_dotdash (s.length + 1) h hdot]
  · have hminus : ∀ c ∈ s, c = '-' := by
      intro c hc
      have hcc := h c hc
      rw [Bool.or_eq_true] at hcc
      rcases hcc with h1 | h1
      · exact absurd ((by simpa using h1 : c = '.') ▸ hc) hdot
      · simpa using h1
    unfold pyEval
    cases htok : tokenize s with
    | none => rfl
    | some ts =>
      have hts : ∀ t ∈ ts, t = Tok.minus :=
        tokenizeAux_dash (s.length + 1) ts htok hminus
      change (match parseGo (s.length + ts.length + 16) PMode.expr 0 ts with
              | some (v, []) => some v
              | _ => none) = none
      rw [parseGo_expr_minus (s.length + ts.length + 16) ts hts]

/-- C10: every expression string consisting solely of digits, dots and
dashes that is not a valid float literal makes the evaluator return the
default gain `0.01` for every ratio: the fast path accepts the character
multiset and then `float()` fails, or (for strings without any digit) the
string reaches the sanitized `eval`, which cannot parse it. -/
theorem c10_literal_fastpath (s : List Char) (lam : ℚ)
    (hchars : ∀ c ∈ s, ddd c = true) (hbad : pyFloat s = none) :
    parse_k_expression (some s) lam = 1 / 100 := by
  rw [parse_k_expression_eq, preprocessK_id hchars]
  by_cases hfast : residueDigits s = true
  · rw [if_pos hfast, hbad]
    rfl
  · have hfast' : residueDigits s = false := by simpa using hfast
    rw [hfast', substLambda_id hchars lam, allowedOk_of_ddd hchars]
    -- the residue is all digits, so a false fast-path test means no digits
    have hallres : (residue s).all pyIsDigit = true := by
      rw [List.all_eq_true]
      intro c hc
      rw [residue, List.mem_filter] at hc
      have hddd := hchars c hc.1
      unfold ddd at hddd
      rw [Bool.or_eq_true, Bool.or_eq_true] at hddd
      rcases hddd with (h1 | h1) | h1
      · exact h1
      · exfalso
        have := hc.2
        simp only [Bool.not_eq_true'] at this
        rw [Bool.or_eq_false_iff] at this
        exact absurd h1 (by simp [this.1])
      · exfalso
        have := hc.2
        simp only [Bool.not_eq_true'] at this
        rw [Bool.or_eq_false_iff] at this
        exact absurd h1 (by simp [this.2])
    have hresnil : residue s = [] := by
      unfold residueDigits at hfast'
      rw [hallres, Bool.and_true] at hfast'
      have hemp : (residue s).isEmpty = true := by
        cases hh : (residue s).isEmpty
        · rw [hh] at hfast'; cases hfast'
        · rfl
      exact List.isEmpty_iff.mp hemp
    have hdotdash : ∀ c ∈ s, (c = '.' || c = '-') = true := by
      intro c hc
      by_cases hcd : (c = '.' || c = '-') = true
      · exact hcd
      · exfalso
        have hcres : c ∈ residue s := by
          rw [residue, List.mem_filter]
          refine ⟨hc, ?_⟩
          simp only [Bool.not_eq_true] at hcd
          simp [hcd]
        rw [hresnil] at hcres
        cases hcres
    rw [pyEval_dotdash hdotdash]
    rfl

/-- Witness for C10: the string `"3-1"` (a valid arithmetic expression but
not a float literal) yields the default gain, not `2`. -/
theorem c10_literal_fastpath_witness :
    parse_k_expression (some ['3', '-', '1']) (7 / 10) = 1 / 100 ∧
      (1 : ℚ) / 100 ≠ 2 :=
  ⟨c10_literal_fastpath ['3', '-', '1'] (7 / 10) (by decide) (by decide),
   by norm_num⟩

/-! ## C6 -/

/-- Counterexample to C6 as stated: the spec's example
`evaluate_gain("0.01*ratio^2", 0.5) = 0.0025` fails on the code, because
the source substitutes only the tokens `lambda` and `λ`, never `ratio`;
the string fails the charset check and falls back to the default
`0.01 ≠ 0.0025`. -/
theorem c6_gain_examples_counterexample :
    parse_k_expression (some "0.01*ratio^2".data) (1 / 2) = 1 / 100 ∧
      (1 : ℚ) / 100 ≠ 1 / 400 := by
  constructor
  · decide
  · norm_num

/-- C6 (amended): the evaluator satisfies the spec's three examples once
the free-variable token is spelled as in the code (`λ`, equivalently
`lambda`): `"not_a_formula!!"` falls back to `0.01`; `"0.02"` evaluates to
`0.02` for every ratio; `"0.01*λ^2"` at ratio `0.5` evaluates to `0.0025`
with no truncation inside the evaluator. -/
theorem c6_gain_examples :
    parse_k_expression (some "not_a_formula!!".data) (1 / 2) = 1 / 100 ∧
    (∀ lam : ℚ, parse_k_expression (some "0.02".data) lam = 1 / 50) ∧
    parse_k_expression (some "0.01*λ^2".data) (1 / 2) = 1 / 400 := by
  refine ⟨by decide, fun lam => ?_, by decide⟩
  rw [parse_k_expression_eq]
  rw [if_pos (by decide : residueDigits (preprocessK "0.02".data) = true)]
  decide

end LoadAnalysis
